import Mathlib

/-!
Shallow embedding of the npg-metadata-sync ONT annotation core
(src/ont.py and src/metadata.py), together with proofs of the spec
claims about it.

Conventions of the embedding:
* Python `Optional[str]` database columns are `Option String`;
  `sample.consent_withdrawn` is a `Bool`.
* The iRODS storage system (partisan `Collection`) is modelled as a
  state mapping each collection path to its metadata AVU set and to an
  ACL (principal to permission).  `Collection.add_metadata` adds an AVU
  that is not already present (iRODS AVU sets); `add_permissions` sets
  the permission of the named group (iRODS chmod semantics).
* `annotate_results_collection` in the source queries the warehouse via
  `find_ont_plex_info` and then iterates over the returned rows; here
  the query result (`plex_info`) is passed as an explicit list argument,
  ordered the way the query orders it.  A Python exception raised inside
  the loop (the `ValueError` from `barcode_name`) aborts the remaining
  iterations but leaves the already-performed iRODS mutations in place;
  the embedding mirrors this by truncating the emitted operation list at
  the first error and reporting the error message separately.
-/

namespace OntSync

/-- An iRODS attribute/value pair (partisan `AVU`); values are
stringified by iRODS, so integer values appear via `toString`. -/
structure AVU where
  attr : String
  value : String
deriving DecidableEq

/-- iRODS permission levels used by the source (partisan `Permission`). -/
inductive Permission where
  | null
  | read
deriving DecidableEq

/-- An iRODS access-control item (partisan `AC`): a group and its
permission. -/
structure AC where
  group : String
  perm : Permission
deriving DecidableEq

/-- ML warehouse `Sample` row, restricted to the columns read by
`ont.py`.  All string columns are nullable in the warehouse. -/
structure Sample where
  sanger_sample_id : Option String
  name : Option String
  accession_number : Option String
  donor_id : Option String
  supplier_name : Option String
  consent_withdrawn : Bool
deriving DecidableEq

/-- ML warehouse `Study` row, restricted to the columns read by
`ont.py`.  `id_study_lims` is a non-null column. -/
structure Study where
  id_study_lims : String
  name : Option String
  accession_number : Option String
deriving DecidableEq

/-- ML warehouse `OseqFlowcell` row, restricted to the columns read by
`ont.py` (`tag_identifier` is nullable; `sample` and `study` are the
joined rows; `last_updated` is a timestamp, modelled as `Nat`). -/
structure OseqFlowcell where
  experiment_name : String
  instrument_slot : Nat
  tag_identifier : Option String
  sample : Sample
  study : Study
  last_updated : Nat
deriving DecidableEq

/-! ### Identifier codec: `TAG_IDENTIFIER_REGEX`, `tag_index`, `barcode_name` -/

/-- The semantics of searching `TAG_IDENTIFIER_REGEX = r"-(\d+)$"` in a
character list: the match exists iff the maximal digit suffix is
non-empty and is preceded by a hyphen; the captured `tag_index` group is
that digit suffix. -/
def tagSuffixCore (cs : List Char) : Option (List Char) :=
  if (cs.reverse.takeWhile Char.isDigit) ≠ [] ∧
      (cs.take (cs.length - (cs.reverse.takeWhile Char.isDigit).length)).getLast?
        = some '-' then
    some (cs.reverse.takeWhile Char.isDigit).reverse
  else
    none

/-- `TAG_IDENTIFIER_REGEX.search` on a string: `some digits` when the
regex matches (capturing the digit group), `none` otherwise. -/
def tagSuffix (s : String) : Option (List Char) :=
  tagSuffixCore s.data

/-- Decimal value of a digit string (Python `int(...)` on the captured
group). -/
def digitsToNat (d : List Char) : Nat :=
  d.foldl (fun n c => 10 * n + (c.toNat - 48)) 0

/-- Python `str.zfill(2)`: left-pad with zeros to width 2. -/
def zfill2 (d : List Char) : List Char :=
  List.replicate (2 - d.length) '0' ++ d

/-- `ont.tag_index`: the captured digit group as an integer, or a
`ValueError` for identifiers the regex does not match. -/
def tag_index (tag_identifier : String) : Except String Nat :=
  match tagSuffix tag_identifier with
  | some d => Except.ok (digitsToNat d)
  | none => Except.error ("Invalid ONT tag identifier " ++ tag_identifier)

/-- `ont.barcode_name`: `"barcode"` followed by the captured digit group
zero-padded to width 2, or a `ValueError` for identifiers the regex does
not match. -/
def barcode_name (tag_identifier : String) : Except String String :=
  match tagSuffix tag_identifier with
  | some d => Except.ok ("barcode" ++ String.mk (zfill2 d))
  | none => Except.error ("Invalid ONT tag identifier " ++ tag_identifier)

/-! ### Metadata and ACL derivation -/

/-- `ont.avu_if_value`: an AVU when the value is non-null, otherwise
nothing. -/
def avu_if_value (attr : String) (value : Option String) : Option AVU :=
  value.map (fun v => AVU.mk attr v)

/-- `ont.make_sample_metadata`: AVUs for the non-null sample columns;
the consent-withdrawn AVU carries value `1` and is present only when the
flag is true.  Attribute strings are the `TrackedSample` enum values
from `metadata.py`. -/
def make_sample_metadata (sample : Sample) : List AVU :=
  ([("sample_id", sample.sanger_sample_id),
    ("sample", sample.name),
    ("sample_accession_number", sample.accession_number),
    ("sample_donor_id", sample.donor_id),
    ("sample_supplier_name", sample.supplier_name),
    ("sample_consent_withdrawn",
      if sample.consent_withdrawn then some "1" else none)]).filterMap
    (fun av => avu_if_value av.1 av.2)

/-- `ont.make_study_metadata`: AVUs for the non-null study columns.
Attribute strings are the `TrackedStudy` enum values from
`metadata.py`. -/
def make_study_metadata (study : Study) : List AVU :=
  ([("study_id", some study.id_study_lims),
    ("study", study.name),
    ("study_accession_number", study.accession_number)]).filterMap
    (fun av => avu_if_value av.1 av.2)

/-- `ont.make_sample_acl`: one grant for the `ss_<study id>` group,
`NULL` when the sample has withdrawn consent, `READ` otherwise. -/
def make_sample_acl (sample : Sample) (study : Study) : List AC :=
  [AC.mk ("ss_" ++ study.id_study_lims)
    (if sample.consent_withdrawn then Permission.null else Permission.read)]

/-! ### Storage state and operations -/

/-- An iRODS mutation performed by the annotator: add one AVU to a
collection, or set one group's permission on a collection (with
`recurse=True` the same permission is also set on the descendants; the
embedding tracks the collection itself). -/
inductive Op where
  | metaAdd (path : String) (avu : AVU)
  | aclSet (path : String) (ac : AC)
deriving DecidableEq

/-- The iRODS state: per collection path, the stored AVU set and the
permission (if any) each group holds. -/
@[ext]
structure IrodsState where
  meta : String → Finset AVU
  acl : String → String → Option Permission

/-- The state with no metadata and no grants anywhere. -/
def emptyState : IrodsState :=
  IrodsState.mk (fun _ => ∅) (fun _ _ => none)

/-- Apply one mutation: `metaAdd` inserts the AVU into the path's AVU
set, `aclSet` overwrites the group's permission on the path. -/
def applyOp (s : IrodsState) : Op → IrodsState
  | Op.metaAdd p a =>
      IrodsState.mk
        (fun q => if q = p then insert a (s.meta q) else s.meta q) s.acl
  | Op.aclSet p ac =>
      IrodsState.mk s.meta
        (fun q g =>
          if q = p ∧ g = ac.group then some ac.perm else s.acl q g)

/-- Apply a list of mutations in order. -/
def applyOps (ops : List Op) (s : IrodsState) : IrodsState :=
  ops.foldl applyOp s

/-! ### The annotator: `annotate_results_collection` -/

/-- Python truthiness of the nullable `tag_identifier` column: `NULL`
and the empty string are falsy. -/
def truthyTag : Option String → Bool
  | none => false
  | some s => s ≠ ""

/-- The result of the per-record loop of
`annotate_results_collection`: the iRODS mutations performed, the
collection path annotated for each processed record (in order), and the
`ValueError` message if the loop aborted. -/
structure GoResult where
  ops : List Op
  targets : List String
  err : Option String
deriving DecidableEq

/-- The iRODS mutations of one record annotated at collection path
`p`: the study AVUs, the sample AVUs and the sample ACL (the
`tag_index` AVU of the multiplexed branch is emitted separately). -/
def recordOps (p : String) (fc : OseqFlowcell) : List Op :=
  (make_study_metadata fc.study).map (Op.metaAdd p) ++
    (make_sample_metadata fc.sample).map (Op.metaAdd p) ++
    (make_sample_acl fc.sample fc.study).map (Op.aclSet p)

/-- The `for fc in plex_info` loop of `annotate_results_collection`.
`root` is the collection the function was called on; `cur` is the
collection currently bound to the Python variable `coll` (initially the
root; reassigned to the barcode sub-collection in the multiplexed
branch, and left unchanged in the non-multiplexed branch, which
annotates `coll`).  A record with a truthy but malformed tag identifier
raises `ValueError` from `barcode_name`, aborting the loop. -/
def annotateGo (root : String) : String → List OseqFlowcell → GoResult
  | _, [] => GoResult.mk [] [] none
  | cur, fc :: rest =>
    if truthyTag fc.tag_identifier then
      match tagSuffix (fc.tag_identifier.getD "") with
      | none =>
          GoResult.mk [] []
            (some ("Invalid ONT tag identifier " ++ fc.tag_identifier.getD ""))
      | some d =>
          let p := root ++ "/" ++ ("barcode" ++ String.mk (zfill2 d))
          let ops := Op.metaAdd p (AVU.mk "tag_index" (toString (digitsToNat d)))
            :: recordOps p fc
          let r := annotateGo root p rest
          GoResult.mk (ops ++ r.ops) (p :: r.targets) r.err
    else
      let r := annotateGo root cur rest
      GoResult.mk (recordOps cur fc ++ r.ops) (cur :: r.targets) r.err

/-- The two instrument-identity AVUs added to the root collection,
namespaced `ont` (partisan renders a namespaced attribute as
`namespace:attribute`). -/
def instrumentAvus (experiment_name : String) (instrument_slot : Nat) : List AVU :=
  [AVU.mk "ont:experiment_name" experiment_name,
    AVU.mk "ont:instrument_slot" (toString instrument_slot)]

/-- All iRODS mutations of one `annotate_results_collection` call on
the query result `plex_info`: the two instrument AVUs on the root
collection, then the per-record loop. -/
def annotateOps (path experiment_name : String) (instrument_slot : Nat)
    (plex_info : List OseqFlowcell) : List Op :=
  (instrumentAvus experiment_name instrument_slot).map (Op.metaAdd path) ++
    (annotateGo path path plex_info).ops

/-- The collection paths annotated for the processed records, in
order. -/
def annTargets (path : String) (plex_info : List OseqFlowcell) : List String :=
  (annotateGo path path plex_info).targets

/-- The `ValueError` message `annotate_results_collection` raises, if
any. -/
def annotateErr (path : String) (plex_info : List OseqFlowcell) : Option String :=
  (annotateGo path path plex_info).err

/-- `ont.annotate_results_collection` as a transformer of the iRODS
state (the warehouse query result `plex_info` is passed explicitly). -/
def annotate_results_collection (path experiment_name : String)
    (instrument_slot : Nat) (plex_info : List OseqFlowcell)
    (s : IrodsState) : IrodsState :=
  applyOps (annotateOps path experiment_name instrument_slot plex_info) s

/-! ### Warehouse queries -/

/-- Ordering of `(experiment_name, instrument_slot)` pairs used by the
`ORDER BY` clause of `find_recent_ont_pos`: ascending by name, then by
slot. -/
def pairLe (a b : String × Nat) : Prop :=
  a.1 < b.1 ∨ (a.1 = b.1 ∧ a.2 ≤ b.2)

instance : DecidableRel pairLe := fun a b => by
  unfold pairLe; infer_instance

instance : IsTotal (String × Nat) pairLe := by
  constructor
  intro a b
  rcases lt_trichotomy a.1 b.1 with h | h | h
  · exact Or.inl (Or.inl h)
  · rcases Nat.le_total a.2 b.2 with h2 | h2
    · exact Or.inl (Or.inr ⟨h, h2⟩)
    · exact Or.inr (Or.inr ⟨h.symm, h2⟩)
  · exact Or.inr (Or.inl h)

instance : IsTrans (String × Nat) pairLe := by
  constructor
  intro a b c hab hbc
  rcases hab with h1 | ⟨h1, h2⟩
  · rcases hbc with h3 | ⟨h3, _⟩
    · exact Or.inl (h1.trans h3)
    · exact Or.inl (h3 ▸ h1)
  · rcases hbc with h3 | ⟨h3, h4⟩
    · exact Or.inl (h1 ▸ h3)
    · exact Or.inr ⟨h1.trans h3, h2.trans h4⟩

/-- `ont.find_recent_ont_pos`: the SQLAlchemy query over the
`oseq_flowcell` table — filter rows by `last_updated >= since`, project
to `(experiment_name, instrument_slot)`, `GROUP BY` both columns
(deduplication) and `ORDER BY` both ascending.  `rows` is the table
content; `since` the timestamp. -/
def find_recent_ont_pos (rows : List OseqFlowcell) (since : Nat) :
    List (String × Nat) :=
  List.insertionSort pairLe
    (((rows.filter (fun r => since ≤ r.last_updated)).map
      (fun r => (r.experiment_name, r.instrument_slot))).dedup)

/-! ### Characterization of `applyOps` -/

/-- The AVUs a mutation list inserts at path `p`. -/
def opsMeta : List Op → String → Finset AVU
  | [], _ => ∅
  | Op.metaAdd q a :: rest, p =>
      if p = q then insert a (opsMeta rest p) else opsMeta rest p
  | Op.aclSet _ _ :: rest, p => opsMeta rest p

/-- The last permission a mutation list writes for group `g` at path
`p`, if any. -/
def opsAcl : List Op → String → String → Option Permission
  | [], _, _ => none
  | Op.metaAdd _ _ :: rest, p, g => opsAcl rest p g
  | Op.aclSet q ac :: rest, p, g =>
      match opsAcl rest p g with
      | some v => some v
      | none => if p = q ∧ g = ac.group then some ac.perm else none

/-- Left-biased choice on optional permissions. -/
def oor (a b : Option Permission) : Option Permission :=
  match a with
  | some v => some v
  | none => b

/-- The spec's notion of a well-formed identifier: a string of the form
`<prefix>-<digits>` with a non-empty all-digit block after the final
hyphen shown. -/
def hasDashDigitsSuffix (s : String) : Prop :=
  ∃ p d : String,
    d ≠ "" ∧ (∀ c ∈ d.data, c.isDigit = true) ∧ s = p ++ "-" ++ d

/-- The barcode sub-collection name the annotator derives for a
record (empty for records the regex rejects). -/
def bcNameOf (fc : OseqFlowcell) : String :=
  match tagSuffix (fc.tag_identifier.getD "") with
  | some d => "barcode" ++ String.mk (zfill2 d)
  | none => ""

/-- The barcode sub-collection path of a record below `root`. -/
def targetOf (root : String) (fc : OseqFlowcell) : String :=
  root ++ "/" ++ bcNameOf fc

/-- The tag index the annotator derives for a record (0 for records
the regex rejects). -/
def tagIdxOf (fc : OseqFlowcell) : Nat :=
  match tagSuffix (fc.tag_identifier.getD "") with
  | some d => digitsToNat d
  | none => 0

/-- A record with a truthy, regex-matching tag identifier. -/
def wellTagged (fc : OseqFlowcell) : Prop :=
  truthyTag fc.tag_identifier = true ∧
    (tagSuffix (fc.tag_identifier.getD "")).isSome = true

/-- A record the loop body processes without raising: untagged, or
tagged with a regex-matching identifier. -/
def okRecord (fc : OseqFlowcell) : Prop :=
  truthyTag fc.tag_identifier = true →
    (tagSuffix (fc.tag_identifier.getD "")).isSome = true

instance (fc : OseqFlowcell) : Decidable (wellTagged fc) := by
  unfold wellTagged; infer_instance

instance (fc : OseqFlowcell) : Decidable (okRecord fc) := by
  unfold okRecord; infer_instance

/-! ### Concrete fixtures for witnesses and counterexamples -/

/-- A sample like the `simple_experiment_001` test fixture. -/
def sample1 : Sample :=
  Sample.mk (some "id1") (some "sample 1") none none none false

/-- A study like the `study_02` test fixture. -/
def study2 : Study :=
  Study.mk "study_02" (some "Study Y") none

/-- An unplexed record (`tag_identifier` NULL). -/
def fcUntagged : OseqFlowcell :=
  OseqFlowcell.mk "e1" 1 none sample1 study2 0

/-- A record whose `tag_identifier` is the empty string. -/
def fcEmptyTag : OseqFlowcell :=
  OseqFlowcell.mk "e1" 1 (some "") sample1 study2 0

/-- A multiplexed record with the given tag identifier. -/
def fcTag (t : String) : OseqFlowcell :=
  OseqFlowcell.mk "e1" 1 (some t) sample1 study2 0


theorem applyOps_meta (ops : List Op) (s : IrodsState) (p : String) :
    (applyOps ops s).meta p = s.meta p ∪ opsMeta ops p := by
  induction ops generalizing s with
  | nil => simp [applyOps, opsMeta]
  | cons op rest ih =>
    cases op with
    | metaAdd q a =>
      show (applyOps rest (applyOp s (Op.metaAdd q a))).meta p = _
      rw [ih]
      by_cases h : p = q
      · subst h
        simp [applyOp, opsMeta, Finset.insert_union, Finset.union_insert]
      · simp [applyOp, opsMeta, h]
    | aclSet q ac =>
      show (applyOps rest (applyOp s (Op.aclSet q ac))).meta p = _
      rw [ih]
      simp [applyOp, opsMeta]

theorem applyOps_acl (ops : List Op) (s : IrodsState) (p g : String) :
    (applyOps ops s).acl p g = oor (opsAcl ops p g) (s.acl p g) := by
  induction ops generalizing s with
  | nil => simp [applyOps, opsAcl, oor]
  | cons op rest ih =>
    cases op with
    | metaAdd q a =>
      show (applyOps rest (applyOp s (Op.metaAdd q a))).acl p g = _
      rw [ih]
      simp [applyOp, opsAcl]
    | aclSet q ac =>
      show (applyOps rest (applyOp s (Op.aclSet q ac))).acl p g = _
      rw [ih]
      cases hrest : opsAcl rest p g with
      | some v => simp [opsAcl, oor, hrest, applyOp]
      | none =>
        by_cases h : p = q ∧ g = ac.group
        · obtain ⟨hp, hg⟩ := h
          subst hp
          subst hg
          simp [opsAcl, oor, hrest, applyOp]
        · simp [opsAcl, oor, hrest, applyOp, h]

/-- Applying the same mutation list twice is the same as applying it
once: metadata adds are set inserts and ACL writes are overwrites. -/
theorem applyOps_idem (ops : List Op) (s : IrodsState) :
    applyOps ops (applyOps ops s) = applyOps ops s := by
  apply IrodsState.ext
  · funext p
    rw [applyOps_meta, applyOps_meta, Finset.union_assoc, Finset.union_self]
  · funext p g
    rw [applyOps_acl, applyOps_acl]
    cases opsAcl ops p g with
    | some v => simp [oor]
    | none => simp [oor]

theorem opsMeta_append (a b : List Op) (p : String) :
    opsMeta (a ++ b) p = opsMeta a p ∪ opsMeta b p := by
  induction a with
  | nil => simp [opsMeta]
  | cons op rest ih =>
    cases op with
    | metaAdd q avu =>
      by_cases h : p = q
      · subst h
        simp [opsMeta, ih, Finset.insert_union]
      · simp [opsMeta, h, ih]
    | aclSet q ac => simp [opsMeta, ih]

theorem mem_opsMeta_of_mem (ops : List Op) (p : String) (a : AVU)
    (h : Op.metaAdd p a ∈ ops) : a ∈ opsMeta ops p := by
  induction ops with
  | nil => simp at h
  | cons op rest ih =>
    rcases List.mem_cons.mp h with heq | hmem
    · rw [← heq]
      simp [opsMeta]
    · cases op with
      | metaAdd q avu =>
        by_cases hpq : p = q
        · subst hpq
          simp [opsMeta, ih hmem]
        · simp [opsMeta, hpq, ih hmem]
      | aclSet q ac => simpa [opsMeta] using ih hmem

/-! ### Lemmas about the identifier codec -/

theorem takeWhile_append_of_forall (p : Char → Bool) (l1 l2 : List Char)
    (h : ∀ c ∈ l1, p c = true) :
    (l1 ++ l2).takeWhile p = l1 ++ l2.takeWhile p := by
  induction l1 with
  | nil => simp
  | cons x xs ih =>
    have hx : p x = true := h x (List.mem_cons_self x xs)
    simp only [List.cons_append, List.takeWhile_cons, hx, if_true]
    rw [ih (fun c hc => h c (List.mem_cons_of_mem x hc))]

/-- On a string of the shape `<prefix>-<digits>` the regex search
matches and captures exactly the digit block. -/
theorem tagSuffixCore_append (pre d : List Char) (hd : d ≠ [])
    (hdig : ∀ c ∈ d, c.isDigit = true) :
    tagSuffixCore (pre ++ '-' :: d) = some d := by
  have htw : ((pre ++ '-' :: d).reverse).takeWhile Char.isDigit = d.reverse := by
    have hrev : (pre ++ '-' :: d).reverse = d.reverse ++ '-' :: pre.reverse := by
      simp
    rw [hrev,
      takeWhile_append_of_forall _ _ _
        (fun c hc => hdig c (List.mem_reverse.mp hc))]
    have hdash : ('-' :: pre.reverse).takeWhile Char.isDigit = [] := by
      simp [List.takeWhile_cons]
    rw [hdash, List.append_nil]
  have hlen : (pre ++ '-' :: d).length - d.reverse.length = pre.length + 1 := by
    simp only [List.length_append, List.length_cons, List.length_reverse]
    omega
  unfold tagSuffixCore
  rw [htw, hlen]
  have hsplit : pre ++ '-' :: d = (pre ++ ['-']) ++ d := by simp
  rw [hsplit,
    List.take_left' (by simp : (pre ++ ['-']).length = pre.length + 1),
    List.getLast?_concat]
  rw [if_pos ⟨by simpa using hd, rfl⟩]
  simp

/-- Conversely, a successful regex search exhibits the
`<prefix>-<digits>` decomposition of the input. -/
theorem tagSuffixCore_some (cs d : List Char) (h : tagSuffixCore cs = some d) :
    (∃ pre, cs = pre ++ '-' :: d) ∧ d ≠ [] ∧ ∀ c ∈ d, c.isDigit = true := by
  unfold tagSuffixCore at h
  by_cases hc : (cs.reverse.takeWhile Char.isDigit) ≠ [] ∧
      (cs.take (cs.length -
        (cs.reverse.takeWhile Char.isDigit).length)).getLast? = some '-'
  · rw [if_pos hc] at h
    obtain ⟨hne, hlast⟩ := hc
    obtain ⟨T, hT⟩ : ∃ T, cs.reverse.takeWhile Char.isDigit = T := ⟨_, rfl⟩
    obtain ⟨D, hD⟩ : ∃ D, cs.reverse.dropWhile Char.isDigit = D := ⟨_, rfl⟩
    have hdig : ∀ c ∈ d, c.isDigit = true := by
      intro c hcmem
      have hd : d = T.reverse := by
        rw [hT] at h
        exact (Option.some.inj h).symm
      rw [hd] at hcmem
      have : c ∈ T := List.mem_reverse.mp hcmem
      rw [← hT] at this
      exact List.mem_takeWhile_imp this
    rw [hT] at hne hlast h
    have hd : d = T.reverse := (Option.some.inj h).symm
    have hdne : d ≠ [] := by
      rw [hd]
      simpa using hne
    have hcs : cs = D.reverse ++ T.reverse := by
      have hsplit := List.takeWhile_append_dropWhile Char.isDigit cs.reverse
      rw [hT, hD] at hsplit
      have := congrArg List.reverse hsplit
      simpa using this.symm
    have hlencs : cs.length = T.length + D.length := by
      have := congrArg List.length hcs
      simpa [Nat.add_comm] using this
    have hcount : cs.length - T.length = D.reverse.length := by
      simp only [List.length_reverse]
      omega
    have heq : cs.take (cs.length - T.length) = D.reverse := by
      rw [hcount]
      conv_lhs => rw [hcs]
      rw [List.take_left]
    rw [heq] at hlast
    obtain ⟨ys, hys⟩ := List.getLast?_eq_some_iff.mp hlast
    refine ⟨⟨ys, ?_⟩, hdne, hdig⟩
    rw [hcs, hys, ← hd]
    simp
  · rw [if_neg hc] at h
    exact absurd h (by simp)

theorem data_eq_nil_iff (s : String) : s.data = [] ↔ s = "" := by
  constructor
  · intro h
    exact String.ext h
  · intro h
    rw [h]

/-- The regex matches `<prefix>-<digits>` and captures the digit
block. -/
theorem tagSuffix_of_wellformed (p d : String) (hd : d ≠ "")
    (hdig : ∀ c ∈ d.data, c.isDigit = true) :
    tagSuffix (p ++ "-" ++ d) = some d.data := by
  unfold tagSuffix
  have hdata : (p ++ "-" ++ d).data = p.data ++ '-' :: d.data := by
    simp
  rw [hdata]
  exact tagSuffixCore_append p.data d.data
    (fun h => hd ((data_eq_nil_iff d).mp h)) hdig

/-- A successful regex match shows the string is well-formed. -/
theorem wellformed_of_tagSuffix (s : String) (d : List Char)
    (h : tagSuffix s = some d) : hasDashDigitsSuffix s := by
  obtain ⟨⟨pre, hpre⟩, hdne, hdig⟩ := tagSuffixCore_some s.data d h
  refine ⟨String.mk pre, String.mk d, ?_, hdig, ?_⟩
  · intro hcon
    exact hdne (by simpa using congrArg String.data hcon)
  · apply String.ext
    simpa using hpre

/-- A well-formed identifier ends in a digit (used to refute
well-formedness of concrete strings). -/
theorem last_digit_of_wellformed (s : String) (h : hasDashDigitsSuffix s) :
    ∃ c, s.data.getLast? = some c ∧ c.isDigit = true := by
  obtain ⟨p, d, hd, hdig, hs⟩ := h
  obtain ⟨c, hc⟩ : ∃ c, d.data.getLast? = some c := by
    cases hdata : d.data with
    | nil => exact absurd ((data_eq_nil_iff d).mp hdata) hd
    | cons x xs => exact ⟨(x :: xs).getLast (by simp), List.getLast?_eq_getLast _ _⟩
  refine ⟨c, ?_, ?_⟩
  · rw [hs]
    simp only [String.data_append, List.getLast?_append, hc]
    rfl
  · obtain ⟨ys, hys⟩ := List.getLast?_eq_some_iff.mp hc
    exact hdig c (by rw [hys]; simp)

/-- The value of a digit string is unchanged by zero-padding. -/
theorem digitsToNat_zfill2 (d : List Char) :
    digitsToNat (zfill2 d) = digitsToNat d := by
  unfold zfill2 digitsToNat
  rw [List.foldl_append]
  have hz : ∀ k : Nat,
      List.foldl (fun n c => 10 * n + (c.toNat - 48)) 0
        (List.replicate k '0') = 0 := by
    intro k
    induction k with
    | zero => rfl
    | succ k ih => simpa [List.replicate_succ] using ih
  rw [hz]

/-! ### Lemmas about the annotator loop -/

theorem go_all_tagged (root : String) (l : List OseqFlowcell) :
    ∀ cur, (∀ fc ∈ l, wellTagged fc) →
      (annotateGo root cur l).targets = l.map (targetOf root) ∧
        (annotateGo root cur l).err = none := by
  induction l with
  | nil => intro cur _; exact ⟨rfl, rfl⟩
  | cons fc rest ih =>
    intro cur hw
    obtain ⟨ht, hs⟩ := hw fc (List.mem_cons_self fc rest)
    obtain ⟨d, hm⟩ := Option.isSome_iff_exists.mp hs
    have hrest := ih (root ++ "/" ++ ("barcode" ++ String.mk (zfill2 d)))
      (fun x hx => hw x (List.mem_cons_of_mem fc hx))
    have htgt : targetOf root fc = root ++ "/" ++ ("barcode" ++ String.mk (zfill2 d)) := by
      unfold targetOf bcNameOf
      rw [hm]
    constructor
    · simp only [annotateGo, ht, hm, if_true, List.map_cons, htgt]
      exact congrArg _ hrest.1
    · simp only [annotateGo, ht, hm, if_true]
      exact hrest.2

theorem go_err_none (root : String) (l : List OseqFlowcell) :
    ∀ cur, (∀ fc ∈ l, okRecord fc) → (annotateGo root cur l).err = none := by
  induction l with
  | nil => intro cur _; rfl
  | cons fc rest ih =>
    intro cur hw
    by_cases ht : truthyTag fc.tag_identifier
    · obtain ⟨d, hm⟩ := Option.isSome_iff_exists.mp
        (hw fc (List.mem_cons_self fc rest) ht)
      simp only [annotateGo, ht, hm, if_true]
      exact ih _ (fun x hx => hw x (List.mem_cons_of_mem fc hx))
    · simp only [annotateGo, ht, if_false, Bool.false_eq_true]
      exact ih _ (fun x hx => hw x (List.mem_cons_of_mem fc hx))

theorem go_length (root : String) (l : List OseqFlowcell) :
    ∀ cur, (∀ fc ∈ l, okRecord fc) →
      (annotateGo root cur l).targets.length = l.length := by
  induction l with
  | nil => intro cur _; rfl
  | cons fc rest ih =>
    intro cur hw
    by_cases ht : truthyTag fc.tag_identifier
    · obtain ⟨d, hm⟩ := Option.isSome_iff_exists.mp
        (hw fc (List.mem_cons_self fc rest) ht)
      simp only [annotateGo, ht, hm, if_true, List.length_cons]
      exact congrArg Nat.succ (ih _ (fun x hx => hw x (List.mem_cons_of_mem fc hx)))
    · simp only [annotateGo, ht, if_false, Bool.false_eq_true, List.length_cons]
      exact congrArg Nat.succ (ih _ (fun x hx => hw x (List.mem_cons_of_mem fc hx)))

theorem go_mem_ops (root : String) (l : List OseqFlowcell) :
    ∀ cur, (∀ fc ∈ l, wellTagged fc) → ∀ fc ∈ l,
      ∀ a ∈ make_study_metadata fc.study ++ make_sample_metadata fc.sample,
        Op.metaAdd (targetOf root fc) a ∈ (annotateGo root cur l).ops := by
  induction l with
  | nil => intro cur _ fc hfc; simp at hfc
  | cons fc0 rest ih =>
    intro cur hw fc hfc a ha
    obtain ⟨ht, hs⟩ := hw fc0 (List.mem_cons_self fc0 rest)
    obtain ⟨d, hm⟩ := Option.isSome_iff_exists.mp hs
    simp only [annotateGo, ht, hm, if_true, List.mem_cons, List.mem_append]
    rcases List.mem_cons.mp hfc with heq | hmem
    · subst heq
      have htgt : targetOf root fc = root ++ "/" ++ ("barcode" ++ String.mk (zfill2 d)) := by
        unfold targetOf bcNameOf
        rw [hm]
      left
      right
      rw [htgt]
      unfold recordOps
      rcases List.mem_append.mp ha with h1 | h2
      · exact List.mem_append.mpr (Or.inl (List.mem_append.mpr (Or.inl
          (List.mem_map.mpr ⟨a, h1, rfl⟩))))
      · exact List.mem_append.mpr (Or.inl (List.mem_append.mpr (Or.inr
          (List.mem_map.mpr ⟨a, h2, rfl⟩))))
    · right
      exact ih _ (fun x hx => hw x (List.mem_cons_of_mem fc0 hx)) fc hmem a ha

/-- While every record up to position `k` is falsy (untagged), the
Python variable `coll` keeps its current value, so the `k`-th record is
annotated at `cur`. -/
theorem go_target_falsy (root : String) (l : List OseqFlowcell) :
    ∀ cur k, k < l.length →
      (∀ i (hi : i < l.length), i ≤ k →
        truthyTag (l.get ⟨i, hi⟩).tag_identifier = false) →
      (annotateGo root cur l).targets.get? k = some cur := by
  induction l with
  | nil => intro cur k hk; simp at hk
  | cons fc rest ih =>
    intro cur k hk hfalsy
    have ht : truthyTag fc.tag_identifier = false :=
      hfalsy 0 (by simp) (Nat.zero_le k)
    simp only [annotateGo, ht, Bool.false_eq_true, if_false]
    cases k with
    | zero => rfl
    | succ k =>
      show (annotateGo root cur rest).targets.get? k = some cur
      exact ih cur k (Nat.lt_of_succ_lt_succ hk)
        (fun i hi hik =>
          hfalsy (i + 1) (Nat.succ_lt_succ hi) (Nat.succ_le_succ hik))

/-- A tagged, well-formed record's barcode path occurs among the
annotated targets when every record is processed. -/
theorem go_target_tagged_mem (root : String) (l : List OseqFlowcell) :
    ∀ cur, (∀ fc ∈ l, okRecord fc) → ∀ fc ∈ l, wellTagged fc →
      targetOf root fc ∈ (annotateGo root cur l).targets := by
  induction l with
  | nil => intro cur _ fc hfc; simp at hfc
  | cons fc0 rest ih =>
    intro cur hok fc hfc hwt
    rcases List.mem_cons.mp hfc with heq | hmem
    · subst heq
      obtain ⟨ht, hs⟩ := hwt
      obtain ⟨d, hm⟩ := Option.isSome_iff_exists.mp hs
      have htgt : targetOf root fc = root ++ "/" ++ ("barcode" ++ String.mk (zfill2 d)) := by
        unfold targetOf bcNameOf
        rw [hm]
      simp only [annotateGo, ht, hm, if_true, htgt, List.mem_cons]
      tauto
    · by_cases ht : truthyTag fc0.tag_identifier
      · obtain ⟨d, hm⟩ := Option.isSome_iff_exists.mp
          (hok fc0 (List.mem_cons_self fc0 rest) ht)
        simp only [annotateGo, ht, hm, if_true, List.mem_cons]
        exact Or.inr (ih _ (fun x hx => hok x (List.mem_cons_of_mem fc0 hx))
          fc hmem hwt)
      · simp only [annotateGo, ht, Bool.false_eq_true, if_false, List.mem_cons]
        exact Or.inr (ih _ (fun x hx => hok x (List.mem_cons_of_mem fc0 hx))
          fc hmem hwt)

/-- When a tagged record with a malformed identifier is reached, the
loop aborts: the mutations and targets are those of the prefix before
it, whatever follows it. -/
theorem go_append_bad (root : String) (bad : OseqFlowcell)
    (l2 : List OseqFlowcell) (hbt : truthyTag bad.tag_identifier = true)
    (hbm : tagSuffix (bad.tag_identifier.getD "") = none) :
    ∀ (l1 : List OseqFlowcell) cur, (∀ fc ∈ l1, okRecord fc) →
      annotateGo root cur (l1 ++ bad :: l2) =
        GoResult.mk (annotateGo root cur l1).ops (annotateGo root cur l1).targets
          (some ("Invalid ONT tag identifier " ++ bad.tag_identifier.getD "")) := by
  intro l1
  induction l1 with
  | nil =>
    intro cur _
    simp only [List.nil_append, annotateGo, hbt, hbm, if_true]
  | cons fc rest ih =>
    intro cur hok
    by_cases ht : truthyTag fc.tag_identifier
    · obtain ⟨d, hm⟩ := Option.isSome_iff_exists.mp
        (hok fc (List.mem_cons_self fc rest) ht)
      simp only [List.cons_append, annotateGo, ht, hm, if_true, List.append_eq]
      rw [ih _ (fun x hx => hok x (List.mem_cons_of_mem fc hx))]
    · simp only [List.cons_append, annotateGo, ht, Bool.false_eq_true, if_false,
        List.append_eq]
      rw [ih _ (fun x hx => hok x (List.mem_cons_of_mem fc hx))]

/-- Two well-tagged records with equal barcode paths have equal tag
indices (zero-padding preserves the decimal value). -/
theorem tagIdxOf_eq_of_targetOf_eq (root : String) (fc1 fc2 : OseqFlowcell)
    (h1 : wellTagged fc1) (h2 : wellTagged fc2)
    (heq : targetOf root fc1 = targetOf root fc2) :
    tagIdxOf fc1 = tagIdxOf fc2 := by
  obtain ⟨d1, hm1⟩ := Option.isSome_iff_exists.mp h1.2
  obtain ⟨d2, hm2⟩ := Option.isSome_iff_exists.mp h2.2
  unfold targetOf bcNameOf at heq
  rw [hm1, hm2] at heq
  have hdata := congrArg String.data heq
  simp only [String.data_append, List.append_assoc] at hdata
  have hz : zfill2 d1 = zfill2 d2 := by
    have h3 := List.append_cancel_left hdata
    have h4 := List.append_cancel_left h3
    have h5 := List.append_cancel_left h4
    simpa using h5
  unfold tagIdxOf
  rw [hm1, hm2]
  show digitsToNat d1 = digitsToNat d2
  rw [← digitsToNat_zfill2 d1, ← digitsToNat_zfill2 d2, hz]

/-- Distinct tag indices give distinct barcode paths. -/
theorem nodup_targets_of_nodup_idx (root : String) (l : List OseqFlowcell)
    (hw : ∀ fc ∈ l, wellTagged fc)
    (h : (l.map tagIdxOf).Nodup) : (l.map (targetOf root)).Nodup := by
  rw [List.Nodup, List.pairwise_map] at h ⊢
  exact h.imp_of_mem
    (fun ha hb hne heq =>
      hne (tagIdxOf_eq_of_targetOf_eq root _ _ (hw _ ha) (hw _ hb) heq))

/-! ### Claim theorems -/

/-- Claim C2: for every Sample and Study pair, `make_sample_acl`
derives exactly one grant, whose principal is the fixed group prefix
`ss_` concatenated with the study's stable identifier and whose
permission is no-access (`NULL`) when the sample's consent-withdrawn
flag is true and `READ` otherwise; in particular a withdrawn sample
always yields the no-access grant (the function sees no other
sample, so no other sample can influence the decision). -/
theorem claim2_sample_acl (sample : Sample) (study : Study) :
    make_sample_acl sample study =
      [AC.mk ("ss_" ++ study.id_study_lims)
        (if sample.consent_withdrawn then Permission.null else Permission.read)] ∧
    (sample.consent_withdrawn = true →
      make_sample_acl sample study =
        [AC.mk ("ss_" ++ study.id_study_lims) Permission.null]) := by
  constructor
  · rfl
  · intro h
    simp [make_sample_acl, h]

/-- Witness for C2 at a concrete consent-withdrawn sample. -/
theorem claim2_witness :
    make_sample_acl (Sample.mk none none none none none true)
        (Study.mk "study_02" none none) =
      [AC.mk "ss_study_02" Permission.null] :=
  (claim2_sample_acl (Sample.mk none none none none none true)
    (Study.mk "study_02" none none)).2 rfl

/-- Claim C5: applying the annotator twice in succession with the same
warehouse query result yields the same final metadata sets and ACLs on
every collection as applying it once: metadata additions are set
inserts and ACL grants are overwrites, so the second, identical
mutation sequence changes nothing. -/
theorem claim5_idempotent (path experiment_name : String)
    (instrument_slot : Nat) (plex_info : List OseqFlowcell)
    (s : IrodsState) :
    annotate_results_collection path experiment_name instrument_slot plex_info
        (annotate_results_collection path experiment_name instrument_slot
          plex_info s) =
      annotate_results_collection path experiment_name instrument_slot
        plex_info s :=
  applyOps_idem _ _

/-- Claim C6: for every identifier of the form `<prefix>-<digits>`,
`tag_index` returns the digit block as an integer and `barcode_name`
returns `barcode` followed by the digit block zero-padded to width 2
(the padding formula `zfill2` leaves blocks of two or more digits
unchanged, so indices of three or more digits keep their width); for
every string without such a suffix both functions fail with the
`ValueError` (InvalidIdentifier), and neither fails on any string with
the suffix. -/
theorem claim6_codec :
    (∀ p d : String, d ≠ "" → (∀ c ∈ d.data, c.isDigit = true) →
      tag_index (p ++ "-" ++ d) = Except.ok (digitsToNat d.data) ∧
      barcode_name (p ++ "-" ++ d) =
        Except.ok ("barcode" ++ String.mk (zfill2 d.data))) ∧
    (∀ s : String, ¬ hasDashDigitsSuffix s →
      tag_index s = Except.error ("Invalid ONT tag identifier " ++ s) ∧
      barcode_name s = Except.error ("Invalid ONT tag identifier " ++ s)) := by
  constructor
  · intro p d hd hdig
    have h := tagSuffix_of_wellformed p d hd hdig
    constructor
    · unfold tag_index
      rw [h]
    · unfold barcode_name
      rw [h]
  · intro s hs
    have h : tagSuffix s = none := by
      cases heq : tagSuffix s with
      | none => rfl
      | some d => exact absurd (wellformed_of_tagSuffix s d heq) hs
    constructor
    · unfold tag_index
      rw [h]
    · unfold barcode_name
      rw [h]

/-- Witness for C6: concrete well-formed identifiers (one of them with
a three-digit index) and a concrete malformed one. -/
theorem claim6_witness :
    tag_index "ONT-Tag-Identifier-1" = Except.ok 1 ∧
    barcode_name "ONT-Tag-Identifier-1" = Except.ok "barcode01" ∧
    barcode_name "a-123" = Except.ok "barcode123" ∧
    tag_index "no-digits-here" =
      Except.error "Invalid ONT tag identifier no-digits-here" := by
  have h1 := claim6_codec.1 "ONT-Tag-Identifier" "1" (by decide) (by decide)
  have h2 := claim6_codec.1 "a" "123" (by decide) (by decide)
  have h3 := claim6_codec.2 "no-digits-here" (by
    intro h
    obtain ⟨c, hc, hdig⟩ := last_digit_of_wellformed _ h
    rw [show ("no-digits-here".data.getLast?) = some 'e' from rfl] at hc
    cases hc
    exact absurd hdig (by decide))
  exact ⟨h1.1, h1.2, h2.2, h3.1⟩

/-- Claim C9: the two instrument-identity AVUs (experiment name and
instrument slot, under the `ont` namespace) are added to the root
collection on every invocation — for every plex query result,
including the empty one and all-multiplexed ones. -/
theorem claim9_instrument_avus (path experiment_name : String)
    (instrument_slot : Nat) (plex_info : List OseqFlowcell)
    (s : IrodsState) :
    AVU.mk "ont:experiment_name" experiment_name ∈
      (annotate_results_collection path experiment_name instrument_slot
        plex_info s).meta path ∧
    AVU.mk "ont:instrument_slot" (toString instrument_slot) ∈
      (annotate_results_collection path experiment_name instrument_slot
        plex_info s).meta path := by
  have h1 : Op.metaAdd path (AVU.mk "ont:experiment_name" experiment_name) ∈
      annotateOps path experiment_name instrument_slot plex_info := by
    simp [annotateOps, instrumentAvus]
  have h2 : Op.metaAdd path
      (AVU.mk "ont:instrument_slot" (toString instrument_slot)) ∈
      annotateOps path experiment_name instrument_slot plex_info := by
    simp [annotateOps, instrumentAvus]
  constructor
  · unfold annotate_results_collection
    rw [applyOps_meta]
    exact Finset.mem_union_right _ (mem_opsMeta_of_mem _ _ _ h1)
  · unfold annotate_results_collection
    rw [applyOps_meta]
    exact Finset.mem_union_right _ (mem_opsMeta_of_mem _ _ _ h2)

/-- Counterexample to claim C1 as stated: the records with tag
identifiers `a-01` and `a-1` (distinct identifiers, so the §3
invariant holds) both derive barcode name `barcode01`, so the resolved
targets are not distinct barcode sub-paths. -/
theorem claim1_counterexample :
    ([fcTag "a-01", fcTag "a-1"].all
      (fun fc => truthyTag fc.tag_identifier)) = true ∧
    annTargets "r" [fcTag "a-01", fcTag "a-1"] =
      ["r/barcode01", "r/barcode01"] ∧
    ¬ (annTargets "r" [fcTag "a-01", fcTag "a-1"]).Nodup := by
  refine ⟨by decide, by decide, by decide⟩

/-- Claim C1, amended: for a plex query result whose records all carry
well-formed tag identifiers, the annotator resolves one target per
record — the root path joined with the barcode name derived from that
record's identifier — each annotated with its own study/sample
metadata, and the targets are distinct whenever the records' tag
indices are distinct; for a single record with no (truthy) tag
identifier it resolves exactly one target, the root path. -/
theorem claim1_plex_completeness :
    (∀ (root experiment_name : String) (instrument_slot : Nat)
      (l : List OseqFlowcell) (s : IrodsState),
      (∀ fc ∈ l, wellTagged fc) →
      annTargets root l = l.map (targetOf root) ∧
      (annTargets root l).length = l.length ∧
      annotateErr root l = none ∧
      (∀ fc ∈ l, ∀ a ∈ make_study_metadata fc.study ++
          make_sample_metadata fc.sample,
        a ∈ (annotate_results_collection root experiment_name
          instrument_slot l s).meta (targetOf root fc)) ∧
      ((l.map tagIdxOf).Nodup → (annTargets root l).Nodup)) ∧
    (∀ (root : String) (fc : OseqFlowcell),
      truthyTag fc.tag_identifier = false → annTargets root [fc] = [root]) := by
  constructor
  · intro root experiment_name instrument_slot l s hw
    have hgo := go_all_tagged root l root hw
    refine ⟨hgo.1, ?_, hgo.2, ?_, ?_⟩
    · show (annotateGo root root l).targets.length = l.length
      rw [hgo.1, List.length_map]
    · intro fc hfc a ha
      unfold annotate_results_collection
      rw [applyOps_meta]
      apply Finset.mem_union_right
      unfold annotateOps
      rw [opsMeta_append]
      apply Finset.mem_union_right
      exact mem_opsMeta_of_mem _ _ _ (go_mem_ops root l root hw fc hfc a ha)
    · intro hidx
      show (annotateGo root root l).targets.Nodup
      rw [hgo.1]
      exact nodup_targets_of_nodup_idx root l hw hidx
  · intro root fc ht
    unfold annTargets annotateGo
    rw [ht]
    rfl

/-- Witness for the amended C1: a two-plex result and a single
unplexed record. -/
theorem claim1_witness :
    annTargets "r" [fcTag "x-1", fcTag "x-2"] = ["r/barcode01", "r/barcode02"] ∧
    (annTargets "r" [fcTag "x-1", fcTag "x-2"]).Nodup ∧
    annTargets "r" [fcUntagged] = ["r"] := by
  have h := claim1_plex_completeness.1 "r" "e1" 1 [fcTag "x-1", fcTag "x-2"]
    emptyState (by decide)
  have h2 := claim1_plex_completeness.2 "r" fcUntagged (by decide)
  exact ⟨h.1.trans (by decide), h.2.2.2.2 (by decide), h2⟩

/-- Counterexample to claim C3 as stated: on a mixed record set (one
untagged record, one well-formed tagged record, in the query's order
with the NULL identifier first) the invocation does not abort — there
is no InconsistentPlexData condition in the code — and both targets
are annotated. -/
theorem claim3_counterexample :
    annotateErr "r" [fcUntagged, fcTag "x-1"] = none ∧
    annTargets "r" [fcUntagged, fcTag "x-1"] = ["r", "r/barcode01"] := by
  refine ⟨by decide, by decide⟩

/-- Claim C3, amended: a mixed (tagged and untagged) record set is not
detected: provided the tagged identifiers are well-formed the
invocation completes without error, annotating one target per record —
each tagged record at its barcode sub-collection, each untagged record
at whatever collection the loop variable currently holds (the root, or
the barcode sub-collection of the most recently processed tagged
record). -/
theorem claim3_mixed_no_abort (root : String) (l : List OseqFlowcell)
    (hok : ∀ fc ∈ l, okRecord fc)
    (_hmix1 : ∃ fc ∈ l, truthyTag fc.tag_identifier = true)
    (_hmix2 : ∃ fc ∈ l, truthyTag fc.tag_identifier = false) :
    annotateErr root l = none ∧
    (annTargets root l).length = l.length ∧
    (∀ fc ∈ l, wellTagged fc → targetOf root fc ∈ annTargets root l) := by
  refine ⟨go_err_none root l root hok, go_length root l root hok, ?_⟩
  intro fc hfc hwt
  exact go_target_tagged_mem root l root hok fc hfc hwt

/-- Witness for the amended C3 at a concrete mixed record set. -/
theorem claim3_witness :
    annotateErr "r" [fcUntagged, fcTag "x-2"] = none ∧
    (annTargets "r" [fcUntagged, fcTag "x-2"]).length = 2 := by
  have h := claim3_mixed_no_abort "r" [fcUntagged, fcTag "x-2"]
    (by decide) (by decide) (by decide)
  exact ⟨h.1, h.2.1⟩

/-- Counterexample to claim C4 as stated: with the malformed record
`no-digits-here` ordered before the well-formed sibling `x-1` (the
query's lexicographic order), the invocation aborts at the malformed
record and the well-formed sibling is never annotated — no target is
annotated at all. -/
theorem claim4_counterexample :
    annotateErr "r" [fcTag "no-digits-here", fcTag "x-1"] =
      some "Invalid ONT tag identifier no-digits-here" ∧
    annTargets "r" [fcTag "no-digits-here", fcTag "x-1"] = [] := by
  refine ⟨by decide, by decide⟩

/-- Claim C4, amended: a record with a truthy but malformed tag
identifier makes the whole call raise the InvalidIdentifier
`ValueError`; records preceding it in the ordered record list are
annotated, and records after it — well-formed or not — are not (the
loop is aborted, not best-effort). -/
theorem claim4_abort_truncates (root experiment_name : String)
    (instrument_slot : Nat) (l1 l2 : List OseqFlowcell)
    (bad : OseqFlowcell) (s : IrodsState)
    (hok : ∀ fc ∈ l1, okRecord fc)
    (hbt : truthyTag bad.tag_identifier = true)
    (hbm : tagSuffix (bad.tag_identifier.getD "") = none) :
    annotate_results_collection root experiment_name instrument_slot
        (l1 ++ bad :: l2) s =
      annotate_results_collection root experiment_name instrument_slot l1 s ∧
    annTargets root (l1 ++ bad :: l2) = annTargets root l1 ∧
    annotateErr root (l1 ++ bad :: l2) =
      some ("Invalid ONT tag identifier " ++ bad.tag_identifier.getD "") := by
  have h := go_append_bad root bad l2 hbt hbm l1 root hok
  refine ⟨?_, ?_, ?_⟩
  · unfold annotate_results_collection annotateOps
    rw [h]
  · unfold annTargets
    rw [h]
  · unfold annotateErr
    rw [h]

/-- Witness for the amended C4: one well-formed record before the
malformed one, one after. -/
theorem claim4_witness :
    annTargets "r" ([fcTag "n-1"] ++ fcTag "no-digits-here" :: [fcTag "x-2"]) =
      annTargets "r" [fcTag "n-1"] ∧
    annotateErr "r" ([fcTag "n-1"] ++ fcTag "no-digits-here" :: [fcTag "x-2"]) =
      some "Invalid ONT tag identifier no-digits-here" := by
  have h := claim4_abort_truncates "r" "e1" 1 [fcTag "n-1"] [fcTag "x-2"]
    (fcTag "no-digits-here") emptyState (by decide) (by decide) (by decide)
  exact ⟨h.2.1, h.2.2⟩

/-- Counterexample to claim C7 as stated: an accession number that is
the empty string (non-null) is not omitted — the code checks only for
null — so an empty-valued tag is emitted even though the source field
is empty. -/
theorem claim7_counterexample :
    (Sample.mk none none (some "") none none false).accession_number
      = some "" ∧
    make_sample_metadata (Sample.mk none none (some "") none none false) =
      [AVU.mk "sample_accession_number" ""] := by
  refine ⟨rfl, by decide⟩

/-- Claim C7, amended: each sample/study tag is in the derived tag set
iff the corresponding source field is non-null (carrying the field's
exact value, which may be the empty string when the field is empty but
non-null); the consent-withdrawn tag is present, with value 1, exactly
when the flag is true — a false value is never emitted — and a null
field never produces any tag, empty-valued or otherwise. -/
theorem claim7_metadata_iff (sample : Sample) (study : Study) (a v : String) :
    (AVU.mk a v ∈ make_sample_metadata sample ↔
      (a = "sample_id" ∧ sample.sanger_sample_id = some v) ∨
      (a = "sample" ∧ sample.name = some v) ∨
      (a = "sample_accession_number" ∧ sample.accession_number = some v) ∨
      (a = "sample_donor_id" ∧ sample.donor_id = some v) ∨
      (a = "sample_supplier_name" ∧ sample.supplier_name = some v) ∨
      (a = "sample_consent_withdrawn" ∧ v = "1" ∧
        sample.consent_withdrawn = true)) ∧
    (AVU.mk a v ∈ make_study_metadata study ↔
      (a = "study_id" ∧ v = study.id_study_lims) ∨
      (a = "study" ∧ study.name = some v) ∨
      (a = "study_accession_number" ∧ study.accession_number = some v)) := by
  constructor
  · rw [make_sample_metadata]
    rw [List.mem_filterMap]
    simp only [List.mem_cons, List.mem_singleton, List.not_mem_nil, or_false]
    constructor
    · rintro ⟨x, hx, hfx⟩
      rcases hx with h | h | h | h | h | h <;> subst h <;>
        simp only [avu_if_value, Option.map_eq_some'] at hfx <;>
        obtain ⟨w, hw1, hw2⟩ := hfx <;>
        injection hw2 with ha hv <;> subst ha <;> subst hv
      · exact Or.inl ⟨rfl, hw1⟩
      · exact Or.inr (Or.inl ⟨rfl, hw1⟩)
      · exact Or.inr (Or.inr (Or.inl ⟨rfl, hw1⟩))
      · exact Or.inr (Or.inr (Or.inr (Or.inl ⟨rfl, hw1⟩)))
      · exact Or.inr (Or.inr (Or.inr (Or.inr (Or.inl ⟨rfl, hw1⟩))))
      · cases hcw : sample.consent_withdrawn
        · rw [hcw] at hw1
          simp at hw1
        · rw [hcw] at hw1
          simp at hw1
          exact Or.inr (Or.inr (Or.inr (Or.inr (Or.inr ⟨rfl, hw1.symm, rfl⟩))))
    · rintro (⟨ha, hv⟩ | ⟨ha, hv⟩ | ⟨ha, hv⟩ | ⟨ha, hv⟩ | ⟨ha, hv⟩ | ⟨ha, hv, hcw⟩)
      · exact ⟨("sample_id", sample.sanger_sample_id), Or.inl rfl, by
          simp [avu_if_value, hv, ha]⟩
      · exact ⟨("sample", sample.name), Or.inr (Or.inl rfl), by
          simp [avu_if_value, hv, ha]⟩
      · exact ⟨("sample_accession_number", sample.accession_number),
          Or.inr (Or.inr (Or.inl rfl)), by simp [avu_if_value, hv, ha]⟩
      · exact ⟨("sample_donor_id", sample.donor_id),
          Or.inr (Or.inr (Or.inr (Or.inl rfl))), by simp [avu_if_value, hv, ha]⟩
      · exact ⟨("sample_supplier_name", sample.supplier_name),
          Or.inr (Or.inr (Or.inr (Or.inr (Or.inl rfl)))), by
          simp [avu_if_value, hv, ha]⟩
      · exact ⟨("sample_consent_withdrawn",
          if sample.consent_withdrawn then some "1" else none),
          Or.inr (Or.inr (Or.inr (Or.inr (Or.inr rfl)))), by
          simp [avu_if_value, hcw, ha, hv]⟩
  · rw [make_study_metadata]
    rw [List.mem_filterMap]
    simp only [List.mem_cons, List.mem_singleton, List.not_mem_nil, or_false]
    constructor
    · rintro ⟨x, hx, hfx⟩
      rcases hx with h | h | h <;> subst h <;>
        simp only [avu_if_value, Option.map_eq_some'] at hfx <;>
        obtain ⟨w, hw1, hw2⟩ := hfx <;>
        injection hw2 with ha hv <;> subst ha <;> subst hv
      · exact Or.inl ⟨rfl, by injection hw1 with h2; exact h2.symm⟩
      · exact Or.inr (Or.inl ⟨rfl, hw1⟩)
      · exact Or.inr (Or.inr ⟨rfl, hw1⟩)
    · rintro (⟨ha, hv⟩ | ⟨ha, hv⟩ | ⟨ha, hv⟩)
      · exact ⟨("study_id", some study.id_study_lims), Or.inl rfl, by
          simp [avu_if_value, hv, ha]⟩
      · exact ⟨("study", study.name), Or.inr (Or.inl rfl), by
          simp [avu_if_value, hv, ha]⟩
      · exact ⟨("study_accession_number", study.accession_number),
          Or.inr (Or.inr rfl), by simp [avu_if_value, hv, ha]⟩

/-- Witness for the amended C7: a null accession number yields no
accession tag; a withdrawn sample yields the consent tag with value
1. -/
theorem claim7_witness :
    (AVU.mk "sample_accession_number" "" ∉ make_sample_metadata sample1) ∧
    AVU.mk "sample_consent_withdrawn" "1" ∈
      make_sample_metadata (Sample.mk none none none none none true) := by
  constructor
  · intro hmem
    have h := (claim7_metadata_iff sample1 study2
      "sample_accession_number" "").1.mp hmem
    revert h
    decide
  · exact (claim7_metadata_iff (Sample.mk none none none none none true)
      study2 "sample_consent_withdrawn" "1").1.mpr
      (Or.inr (Or.inr (Or.inr (Or.inr (Or.inr ⟨rfl, rfl, rfl⟩)))))

/-- Claim C8: `find_recent_ont_pos` returns exactly the
(experiment name, instrument slot) pairs of rows updated at or after
the given timestamp, deduplicated, ordered ascending by experiment
name and then by slot. -/
theorem claim8_recent_pos (rows : List OseqFlowcell) (since : Nat) :
    List.Sorted pairLe (find_recent_ont_pos rows since) ∧
    (find_recent_ont_pos rows since).Nodup ∧
    (∀ p : String × Nat, p ∈ find_recent_ont_pos rows since ↔
      ∃ r ∈ rows, since ≤ r.last_updated ∧
        r.experiment_name = p.1 ∧ r.instrument_slot = p.2) := by
  refine ⟨List.sorted_insertionSort pairLe _, ?_, ?_⟩
  · exact ((List.perm_insertionSort pairLe _).nodup_iff).mpr
      (List.nodup_dedup _)
  · intro p
    rw [find_recent_ont_pos, (List.perm_insertionSort pairLe _).mem_iff,
      List.mem_dedup, List.mem_map]
    constructor
    · rintro ⟨r, hr, heq⟩
      rw [List.mem_filter] at hr
      exact ⟨r, hr.1, by simpa using hr.2, by rw [← heq], by rw [← heq]⟩
    · rintro ⟨r, hr, hsince, h1, h2⟩
      exact ⟨r, List.mem_filter.mpr ⟨hr, by simpa using hsince⟩, by
        rw [h1, h2]⟩

/-- Claim C10: a record whose tag identifier is the empty string is
falsy in Python, so the annotator takes the non-multiplexed branch and
annotates the root collection rather than deriving a barcode name
(which would raise InvalidIdentifier on the empty string).  The
ordering hypothesis mirrors the query's `ORDER BY tag_identifier`
(NULL and empty identifiers sort before non-empty ones), under which
the loop variable still holds the root when an empty-tag record is
processed. -/
theorem claim10_empty_tag_root (root : String) (l : List OseqFlowcell)
    (hord : List.Pairwise
      (fun a b => truthyTag a.tag_identifier = true →
        truthyTag b.tag_identifier = true) l)
    (hok : ∀ fc ∈ l, okRecord fc) :
    annotateErr root l = none ∧
    (∀ k (hk : k < l.length), (l.get ⟨k, hk⟩).tag_identifier = some "" →
      (annTargets root l).get? k = some root) ∧
    barcode_name "" = Except.error "Invalid ONT tag identifier " := by
  refine ⟨go_err_none root l root hok, ?_, rfl⟩
  intro k hk hke
  have hkf : truthyTag ((l.get ⟨k, hk⟩).tag_identifier) = false := by
    rw [hke]
    decide
  apply go_target_falsy root l root k hk
  intro i hi hik
  rcases Nat.lt_or_ge i k with hlt | hge
  · cases hti : truthyTag ((l.get ⟨i, hi⟩).tag_identifier) with
    | false => rfl
    | true =>
      have hpair := List.pairwise_iff_get.mp hord ⟨i, hi⟩ ⟨k, hk⟩ hlt
      rw [hpair hti] at hkf
      exact absurd hkf (by simp)
  · have hik2 : i = k := Nat.le_antisymm hik hge
    subst hik2
    exact hkf

/-- Witness for C10: an empty-tag record ordered before a tagged one
is annotated at the root. -/
theorem claim10_witness :
    (annTargets "r" [fcEmptyTag, fcTag "x-1"]).get? 0 = some "r" := by
  have h := claim10_empty_tag_root "r" [fcEmptyTag, fcTag "x-1"]
    (by decide) (by decide)
  exact h.2.1 0 (by decide) (by decide)

end OntSync
